import Mathlib

/-!
Shallow embedding of `advanced-vector/vector.h`: a `RawMemory<T>` storage
owner and a `Vector<T>` dynamic array built on it.  Pure value-level model:
an element type `α`, a vector state carrying the list of live (constructed)
elements in slot order together with the capacity of the current storage
block.  Machine-level aspects that the claims need (slot liveness, the
`size_t` counter, fallible element copies during reallocation, raw buffer
addresses) are modelled separately below.
-/

set_option linter.unusedVariables false
set_option linter.unnecessarySeqFocus false

/-- Model of `RawMemory<T>`: `buffer` is the `buffer_` pointer (`none` is
`nullptr`, `some a` an allocated region at abstract address `a`), `capacity`
is `capacity_`. -/
structure RawMemory where
  buffer : Option Nat
  capacity : Nat
deriving DecidableEq, Repr

namespace RawMemory

/-- Model of the move constructor
`RawMemory(RawMemory&& other) { buffer_ = std::move(other.buffer_); capacity_ = other.capacity_; }`.
`std::move` on a raw pointer just copies the pointer value, so the source
object is left exactly as it was.  Result: (new object, source after the move). -/
def moveCtor (other : RawMemory) : RawMemory × RawMemory :=
  ({ buffer := other.buffer, capacity := other.capacity }, other)

/-- Model of `operator=(RawMemory&& other)`: after the self-check it copies
`buffer_` and `capacity_` from the source and leaves the source unchanged.
`aliased` models the pointer comparison `this == &other`.
Result: (assigned-to object, source after the assignment). -/
def moveAssign (aliased : Bool) (dst src : RawMemory) : RawMemory × RawMemory :=
  if aliased then (dst, src)
  else ({ buffer := src.buffer, capacity := src.capacity }, src)

/-- Model of `Deallocate` as called by the destructor: the list of region
addresses passed to `operator delete` (empty for a null buffer). -/
def dtorReleases (m : RawMemory) : List Nat :=
  match m.buffer with
  | some a => [a]
  | none => []

end RawMemory

/-- Value-level model of `Vector<T>`: `elems` is the sequence of live
(constructed) elements occupying slots `[0, size_)` of the storage, `cap`
is `data_.Capacity()`.  `size_` is `elems.length`. -/
structure Vec (α : Type) where
  elems : List α
  cap : Nat
deriving DecidableEq, Repr

namespace Vec

variable {α : Type}

/-- Model of `Size()`. -/
def Size (v : Vec α) : Nat := v.elems.length

/-- Model of `Capacity()`. -/
def Capacity (v : Vec α) : Nat := v.cap

/-- Representation invariant of the array: `0 ≤ size_ ≤ capacity` (the lower
bound is inherent to `Nat`). -/
def Inv (v : Vec α) : Prop := v.elems.length ≤ v.cap

instance (v : Vec α) : Decidable v.Inv := by
  unfold Inv; infer_instance

/-- Model of the default constructor: size 0, capacity 0, no allocation. -/
def mkDefault : Vec α := { elems := [], cap := 0 }

/-- Model of `explicit Vector(size_t size)`: allocates storage for `size`
elements and value-constructs all of them
(`std::uninitialized_value_construct_n`). -/
def mkSized [Inhabited α] (size : Nat) : Vec α :=
  { elems := List.replicate size default, cap := size }

/-- Model of the copy constructor: storage sized to `other.size_`, the
elements copy-constructed in order (`std::uninitialized_copy_n`). -/
def copyCtor (other : Vec α) : Vec α :=
  { elems := other.elems, cap := other.elems.length }

/-- Model of the move constructor `Vector(Vector&& other)`: the freshly
default-constructed object swaps with `other`, so the new object takes the
storage and size of `other` and `other` is left empty.
Result: (new object, source after the move). -/
def moveCtor (other : Vec α) : Vec α × Vec α :=
  (other, { elems := [], cap := 0 })

/-- Model of `operator=(Vector&& other)`: after the self-check (`aliased`
models `this == &other`) it swaps storage and size with the source.
Result: (assigned-to object, source after the assignment). -/
def moveAssign (aliased : Bool) (dst src : Vec α) : Vec α × Vec α :=
  if aliased then (dst, src) else (src, dst)

/-- Model of the three-case body of `operator=(const Vector& other)` (the
code after the self-check):
case 1, `other.size_ < size_`: `std::copy` the `other.size_` elements over
the prefix, destroy the surplus `[other.size_, size_)`, shrink `size_`;
case 2, `other.size_ ≤ Capacity()`: `std::copy` over the live prefix,
`std::uninitialized_copy_n` the remainder into the uninitialized slots;
case 3: build a temporary copy of `other` and swap it in. -/
def copyAssignBody (dst src : Vec α) : Vec α :=
  if src.elems.length < dst.elems.length then
    { elems := (src.elems ++ dst.elems.drop src.elems.length).take src.elems.length,
      cap := dst.cap }
  else if src.elems.length ≤ dst.cap then
    { elems := src.elems.take dst.elems.length ++ src.elems.drop dst.elems.length,
      cap := dst.cap }
  else
    { elems := src.elems, cap := src.elems.length }

/-- Model of `operator=(const Vector& other)` including the self-check
`this == &other` (modelled by `aliased`). -/
def copyAssign (aliased : Bool) (dst src : Vec α) : Vec α :=
  if aliased then dst else copyAssignBody dst src

/-- Model of `Reserve(new_capacity)`: no-op when `new_capacity ≤ Capacity()`;
otherwise allocate new storage of exactly `new_capacity`, relocate the
elements (move or copy per the policy; value-level the sequence is
unchanged), destroy the originals and swap. -/
def Reserve (v : Vec α) (new_capacity : Nat) : Vec α :=
  if new_capacity ≤ v.cap then v
  else { elems := v.elems, cap := new_capacity }

/-- Model of `EmplaceBack` (success path, no exception): with spare capacity
construct at slot `size_`; otherwise allocate `size_ == 0 ? 1 : 2 * size_`
slots, construct the new element at slot `size_` of the new block, relocate
the old elements into slots `[0, size_)`, swap and destroy the originals. -/
def EmplaceBack (v : Vec α) (x : α) : Vec α :=
  if v.elems.length < v.cap then
    { elems := v.elems ++ [x], cap := v.cap }
  else
    { elems := v.elems ++ [x],
      cap := if v.elems.length = 0 then 1 else 2 * v.elems.length }

/-- Model of `PushBack` (both overloads forward to `EmplaceBack`). -/
def PushBack (v : Vec α) (x : α) : Vec α := EmplaceBack v x

/-- Model of `PopBack`: `assert(size_ != 0)` fires on an empty array
(modelled as `none`); otherwise destroy the last element and decrement
`size_`. -/
def PopBack (v : Vec α) : Option (Vec α) :=
  if v.elems.length = 0 then none
  else some { elems := v.elems.dropLast, cap := v.cap }

/-- Model of `std::move_backward(begin() + first, begin() + last, begin() + last + 1)`
inside a buffer: slots `(first, last]` receive the previous values of slots
`[first, last)`; slots `[0, first]` and `(last, …)` keep their values. -/
def moveBackwardOne (l : List α) (first last : Nat) : List α :=
  l.take (first + 1) ++ (l.drop first).take (last - first) ++ l.drop (last + 1)

/-- Model of `Emplace(pos, args...)` (success path); `index` is
`std::distance(cbegin(), pos)` and the result also carries the index of the
returned iterator.
Branch 1, `index == size_`: `EmplaceBack`, return `end() - 1`.
Branch 2, spare capacity: construct the value off to the side, move the last
element into slot `size_`, `std::move_backward` shifts `[index, size_ - 1)`
one slot right, move-assign the value into slot `index` (the default of
`getLastD` is never used: this branch has `index < size_`).
Branch 3: allocate `size_ == 0 ? 1 : 2 * size_` slots, construct the value
at slot `index` of the new block, relocate `[0, index)` before it and
`[index, size_)` after it, swap and destroy the originals. -/
def Emplace (v : Vec α) (index : Nat) (x : α) : Vec α × Nat :=
  if index = v.elems.length then
    (EmplaceBack v x, v.elems.length)
  else if v.elems.length < v.cap then
    ({ elems := (moveBackwardOne (v.elems ++ [v.elems.getLastD x]) index
                  (v.elems.length - 1)).set index x,
       cap := v.cap }, index)
  else
    ({ elems := v.elems.take index ++ x :: v.elems.drop index,
       cap := if v.elems.length = 0 then 1 else 2 * v.elems.length }, index)

/-- Model of `Insert(pos, value)`: forwards to `Emplace`. -/
def Insert (v : Vec α) (index : Nat) (x : α) : Vec α × Nat := Emplace v index x

/-- Model of `Erase(pos)` (value level; see `EraseMach` for the unchecked
`size_` arithmetic): destroy the element at `index`, shift `[index + 1, size_)`
one slot left with `std::move`/`std::copy`, decrement `size_`.  The live
elements that remain are `take index ++ drop (index + 1)`; the result also
carries the index of the returned iterator. -/
def Erase (v : Vec α) (index : Nat) : Vec α × Nat :=
  ({ elems := v.elems.take index ++ v.elems.drop (index + 1), cap := v.cap }, index)

/-- Model of `Resize(new_size)`: truncate when `new_size ≤ size_`;
value-construct the tail when it fits in capacity; otherwise `Reserve`
first and then value-construct the tail. -/
def Resize [Inhabited α] (v : Vec α) (new_size : Nat) : Vec α :=
  if new_size ≤ v.elems.length then
    { elems := v.elems.take new_size, cap := v.cap }
  else if new_size ≤ v.cap then
    { elems := v.elems ++ List.replicate (new_size - v.elems.length) default,
      cap := v.cap }
  else
    let r := Reserve v new_size
    { elems := r.elems ++ List.replicate (new_size - r.elems.length) default,
      cap := r.cap }

/-- Model of `Swap(other)`: exchanges storage and size. -/
def SwapOp (a b : Vec α) : Vec α × Vec α := (b, a)

/-- Model of the mutable `operator[]`: `assert(index < size_)` fires out of
range (modelled as `none`). -/
def getChecked (v : Vec α) (index : Nat) : Option α :=
  if index < v.elems.length then v.elems[index]? else none

end Vec

/-- Machine-level view of the array: `slots` is the storage block slot by
slot (`some a` a live constructed object, `none` uninitialized raw storage;
`slots.length` is the capacity) and `size` is the raw `size_t` value of
`size_`. -/
structure MachVec (α : Type) where
  slots : List (Option α)
  size : Nat
deriving DecidableEq, Repr

namespace Vec

variable {α : Type}

/-- The machine-level state represented by a value-level vector: the live
elements occupy slots `[0, size_)`, the slots `[size_, capacity)` are
uninitialized. -/
def mach (v : Vec α) : MachVec α :=
  { slots := v.elems.map some ++ List.replicate (v.cap - v.elems.length) none,
    size := v.elems.length }

end Vec

namespace MachVec

variable {α : Type}

/-- Well-formedness of a machine state: `size_` does not exceed the
capacity, every slot in `[0, size_)` holds a live object, and every slot in
`[size_, capacity)` is uninitialized. -/
def WF (m : MachVec α) : Prop :=
  m.size ≤ m.slots.length ∧
  (∀ i, i < m.size → (m.slots.getD i none).isSome = true) ∧
  (∀ i, i < m.slots.length → m.size ≤ i → m.slots.getD i none = none)

instance (m : MachVec α) [DecidableEq α] : Decidable m.WF := by
  unfold WF; infer_instance

end MachVec

namespace Vec

variable {α : Type}

/-- Model of `std::uninitialized_copy_n(src, n, dst)` with a fallible
element copy constructor `copy` (`none` models a throw): returns the
constructed sequence, or `none` when some copy throws, in which case the
algorithm has already destroyed the elements it constructed. -/
def uninitCopyN (copy : α → Option α) : List α → Option (List α)
  | [] => some []
  | x :: xs =>
    match copy x with
    | none => none
    | some y => (uninitCopyN copy xs).map (y :: ·)

/-- Machine-level model of `EmplaceBack` when the element type relocates by
copy, with a fallible copy constructor.  With spare capacity it constructs
in place.  Otherwise it allocates `size_ == 0 ? 1 : 2 * size_` slots,
constructs the new element at slot `size_` of the new block, and runs
`std::uninitialized_copy_n` under `try`; the `catch (...)` clause only
destroys the new element and does NOT rethrow, so control falls through to
`data_.Swap(tmp); ++size_; std::destroy_n(tmp.GetAddress(), size_ - 1)` —
the old elements are destroyed and freed, the new block (holding no live
object) becomes the storage, and no exception leaves the function.  The
`Except` codomain records whether an exception escapes; it never does. -/
def EmplaceBackFallible (copy : α → Option α) (v : Vec α) (x : α) :
    Except Unit (MachVec α) :=
  if v.elems.length < v.cap then
    .ok { slots := v.elems.map some ++ [some x] ++
            List.replicate (v.cap - (v.elems.length + 1)) none,
          size := v.elems.length + 1 }
  else
    let newCap := if v.elems.length = 0 then 1 else 2 * v.elems.length
    match uninitCopyN copy v.elems with
    | some ys =>
        .ok { slots := ys.map some ++ [some x] ++
                List.replicate (newCap - (v.elems.length + 1)) none,
              size := v.elems.length + 1 }
    | none =>
        .ok { slots := List.replicate newCap none,
              size := v.elems.length + 1 }

/-- Value of `--size_` on a 64-bit `size_t`. -/
def decSizeT (s : Nat) : Nat := (s + (2 ^ 64 - 1)) % 2 ^ 64

/-- Machine-level model of `Erase(pos)` at index `index`: it performs no
precondition check at all — `pos->~T()` destroys the slot, the shift
`std::move(begin() + index + 1, end(), begin() + index)` overwrites
`[index, size_ - 1)` with the following slots (an empty range when
`size_ = 0`), and `--size_` is raw `size_t` arithmetic. -/
def EraseMach (m : MachVec α) (index : Nat) : MachVec α :=
  let destroyed := m.slots.set index none
  { slots := (List.range destroyed.length).map fun j =>
      if index ≤ j ∧ j + 1 < m.size then destroyed.getD (j + 1) none
      else destroyed.getD j none,
    size := decSizeT m.size }

/-- Full representation invariant at machine level: `0 ≤ size_ ≤ capacity`,
slots `[0, size_)` live, slots `[size_, capacity)` uninitialized. -/
def GoodState (v : Vec α) : Prop := v.Inv ∧ v.mach.WF

end Vec

namespace Vec

variable {α : Type}

/-- The in-place insertion dance of `Emplace` (move the last element into
the spare slot, shift `[index, size_ - 1)` one slot right, assign the new
value at `index`) produces exactly the original sequence with the new value
inserted at `index`. -/
theorem shiftDance_eq_insert (l : List α) (x : α) (i : Nat) (h : i < l.length) :
    (moveBackwardOne (l ++ [l.getLastD x]) i (l.length - 1)).set i x
      = l.take i ++ x :: l.drop i := by
  have hA : (l ++ [l.getLastD x]).take (i + 1) = l.take (i + 1) := by
    rw [List.take_append_eq_append_take]
    have h0 : i + 1 - l.length = 0 := by omega
    simp [h0]
  have hdrop : (l ++ [l.getLastD x]).drop i = l.drop i ++ [l.getLastD x] := by
    rw [List.drop_append_eq_append_drop]
    have h0 : i - l.length = 0 := by omega
    simp [h0]
  have hB : ((l ++ [l.getLastD x]).drop i).take (l.length - 1 - i)
      = (l.drop i).take (l.length - 1 - i) := by
    rw [hdrop, List.take_append_eq_append_take]
    have h0 : l.length - 1 - i - (l.drop i).length = 0 := by
      simp only [List.length_drop]
      omega
    rw [h0, List.take_zero, List.append_nil]
  have hC : (l ++ [l.getLastD x]).drop (l.length - 1 + 1) = [l.getLastD x] := by
    have h0 : l.length - 1 + 1 = l.length := by omega
    rw [h0, List.drop_append_eq_append_drop, List.drop_length]
    simp
  have hne : l.drop i ≠ [] := by
    intro hcon
    have hlen := congrArg List.length hcon
    simp [List.length_drop] at hlen
    omega
  have hlne : l ≠ [] := by
    intro hcon; subst hcon; simp at h
  have hlast : l.getLastD x = (l.drop i).getLast hne := by
    rw [List.getLast_drop, List.getLastD_eq_getLast?,
      List.getLast?_eq_getLast l hlne]
    rfl
  have hmid : (l.drop i).take (l.length - 1 - i) ++ [l.getLastD x] = l.drop i := by
    have h1 : l.length - 1 - i = (l.drop i).length - 1 := by
      simp only [List.length_drop]
      omega
    rw [h1, ← List.dropLast_eq_take, hlast, List.dropLast_append_getLast]
  have hstep : moveBackwardOne (l ++ [l.getLastD x]) i (l.length - 1)
      = l.take (i + 1) ++ l.drop i := by
    unfold moveBackwardOne
    rw [hA, hB, hC, List.append_assoc, hmid]
  rw [hstep, List.set_append]
  have hlen1 : (l.take (i + 1)).length = i + 1 := by
    simp [List.length_take]; omega
  rw [if_pos (by rw [hlen1]; omega)]
  have hset : (l.take (i + 1)).set i x = l.take i ++ [x] := by
    rw [List.take_succ, List.set_append]
    have hl : (l.take i).length = i := by simp [List.length_take]; omega
    rw [if_neg (by rw [hl]; omega), hl, Nat.sub_self]
    have hg : l[i]? = some l[i] := List.getElem?_eq_getElem h
    simp [hg]
  rw [hset, List.append_assoc, List.singleton_append]

/-- Both branches of `EmplaceBack` append the new element after the live
sequence. -/
theorem EmplaceBack_elems (v : Vec α) (x : α) :
    (EmplaceBack v x).elems = v.elems ++ [x] := by
  unfold EmplaceBack
  by_cases h : v.elems.length < v.cap <;> simp [h]

/-- Capacity of `EmplaceBack` when spare capacity exists: unchanged. -/
theorem EmplaceBack_cap_spare (v : Vec α) (x : α) (h : v.elems.length < v.cap) :
    (EmplaceBack v x).cap = v.cap := by
  unfold EmplaceBack
  rw [if_pos h]

/-- Capacity of `EmplaceBack` when the array is full: the new block has
`size_ == 0 ? 1 : 2 * size_` slots. -/
theorem EmplaceBack_cap_full (v : Vec α) (x : α) (h : ¬ v.elems.length < v.cap) :
    (EmplaceBack v x).cap = if v.elems.length = 0 then 1 else 2 * v.elems.length := by
  unfold EmplaceBack
  rw [if_neg h]

/-- Element sequence produced by `Emplace` at a valid index: the original
sequence with the new value inserted at `index`. -/
theorem Emplace_elems (v : Vec α) (i : Nat) (x : α) (h : i ≤ v.elems.length) :
    (Emplace v i x).1.elems = v.elems.take i ++ x :: v.elems.drop i := by
  rcases Nat.eq_or_lt_of_le h with heq | hlt
  · unfold Emplace
    rw [if_pos heq]
    subst heq
    simp [EmplaceBack_elems, List.take_length, List.drop_length]
  · unfold Emplace
    rw [if_neg (by omega)]
    by_cases h2 : v.elems.length < v.cap
    · rw [if_pos h2]
      simpa using shiftDance_eq_insert v.elems x i hlt
    · rw [if_neg h2]

/-- Index returned by `Emplace` at a valid index: the position of the newly
inserted element. -/
theorem Emplace_ret (v : Vec α) (i : Nat) (x : α) (h : i ≤ v.elems.length) :
    (Emplace v i x).2 = i := by
  unfold Emplace
  by_cases h1 : i = v.elems.length
  · rw [if_pos h1]
    exact h1.symm
  · rw [if_neg h1]
    by_cases h2 : v.elems.length < v.cap <;> simp [h2]

/-- Capacity of `Emplace` when spare capacity exists: unchanged. -/
theorem Emplace_cap_spare (v : Vec α) (i : Nat) (x : α)
    (h : v.elems.length < v.cap) :
    (Emplace v i x).1.cap = v.cap := by
  unfold Emplace
  by_cases h1 : i = v.elems.length
  · rw [if_pos h1]
    exact EmplaceBack_cap_spare v x h
  · rw [if_neg h1, if_pos h]

/-- Capacity of `Emplace` when the array is full: the new block has
`size_ == 0 ? 1 : 2 * size_` slots. -/
theorem Emplace_cap_full (v : Vec α) (i : Nat) (x : α)
    (h : ¬ v.elems.length < v.cap) :
    (Emplace v i x).1.cap = if v.elems.length = 0 then 1 else 2 * v.elems.length := by
  unfold Emplace
  by_cases h1 : i = v.elems.length
  · rw [if_pos h1]
    exact EmplaceBack_cap_full v x h
  · rw [if_neg h1, if_neg h]

/-- A well-formed value-level state denotes a well-formed machine state:
slots `[0, size_)` live, slots `[size_, capacity)` uninitialized. -/
theorem inv_mach_wf (v : Vec α) (h : v.Inv) : v.mach.WF := by
  unfold Inv at h
  unfold MachVec.WF mach
  simp only [List.length_append, List.length_map, List.length_replicate]
  refine ⟨by omega, ?_, ?_⟩
  · intro i hi
    rw [List.getD_eq_getElem?_getD, List.getElem?_append,
      if_pos (by simpa using hi), List.getElem?_map,
      List.getElem?_eq_getElem hi]
    simp
  · intro i hcap hsize
    rw [List.getD_eq_getElem?_getD, List.getElem?_append,
      if_neg (by simp only [List.length_map]; omega), List.getElem?_replicate,
      if_pos (by simp only [List.length_map]; omega)]
    simp

/-- The full invariant follows from the size bound. -/
theorem goodState_of_inv (v : Vec α) (h : v.Inv) : v.GoodState :=
  ⟨h, inv_mach_wf v h⟩

theorem inv_mkDefault : (mkDefault : Vec α).Inv := by
  simp [mkDefault, Inv]

theorem inv_mkSized [Inhabited α] (n : Nat) : (mkSized n : Vec α).Inv := by
  simp [mkSized, Inv]

theorem inv_copyCtor (v : Vec α) : (copyCtor v).Inv := by
  simp [copyCtor, Inv]

theorem inv_moveCtor (v : Vec α) (h : v.Inv) :
    (moveCtor v).1.Inv ∧ (moveCtor v).2.Inv := by
  exact ⟨h, by simp [moveCtor, Inv]⟩

theorem inv_moveAssign (aliased : Bool) (dst src : Vec α)
    (h1 : dst.Inv) (h2 : src.Inv) :
    (moveAssign aliased dst src).1.Inv ∧ (moveAssign aliased dst src).2.Inv := by
  unfold moveAssign
  by_cases hb : aliased = true <;> simp [hb, h1, h2]

theorem inv_copyAssign (aliased : Bool) (dst src : Vec α) (hd : dst.Inv) :
    (copyAssign aliased dst src).Inv := by
  unfold Inv at hd ⊢
  unfold copyAssign copyAssignBody
  by_cases hb : aliased = true
  · simpa [hb] using hd
  · simp only [hb, if_false]
    by_cases h1 : src.elems.length < dst.elems.length
    · rw [if_pos h1]
      simp
      omega
    · rw [if_neg h1]
      by_cases h2 : src.elems.length ≤ dst.cap
      · rw [if_pos h2]
        simp
        omega
      · rw [if_neg h2]
        simp

theorem inv_Reserve (v : Vec α) (n : Nat) (h : v.Inv) : (Reserve v n).Inv := by
  unfold Inv at h ⊢
  unfold Reserve
  by_cases h1 : n ≤ v.cap <;> simp [h1]
  · exact h
  · omega

theorem inv_EmplaceBack (v : Vec α) (x : α) (h : v.Inv) :
    (EmplaceBack v x).Inv := by
  unfold Inv at h ⊢
  unfold EmplaceBack
  by_cases h1 : v.elems.length < v.cap
  · simp only [if_pos h1, List.length_append, List.length_cons, List.length_nil]
    omega
  · simp only [if_neg h1, List.length_append, List.length_cons, List.length_nil]
    by_cases h2 : v.elems.length = 0 <;> simp [h2] <;> omega

theorem inv_PopBack (v : Vec α) (w : Vec α) (hw : PopBack v = some w)
    (h : v.Inv) : w.Inv := by
  unfold PopBack at hw
  by_cases h1 : v.elems.length = 0
  · simp [h1] at hw
  · rw [if_neg h1] at hw
    cases hw
    unfold Inv at h ⊢
    simp only [List.length_dropLast]
    omega

theorem inv_Emplace (v : Vec α) (i : Nat) (x : α) (h : v.Inv)
    (hi : i ≤ v.Size) : (Emplace v i x).1.Inv := by
  unfold Inv
  rw [Emplace_elems v i x hi]
  have hlen : (v.elems.take i ++ x :: v.elems.drop i).length
      = v.elems.length + 1 := by
    simp only [List.length_append, List.length_take, List.length_cons,
      List.length_drop]
    unfold Size at hi
    omega
  rw [hlen]
  by_cases h2 : v.elems.length < v.cap
  · rw [Emplace_cap_spare v i x h2]
    omega
  · rw [Emplace_cap_full v i x h2]
    by_cases h3 : v.elems.length = 0 <;> simp [h3] <;> omega

theorem inv_Erase (v : Vec α) (i : Nat) (h : v.Inv) : (Erase v i).1.Inv := by
  unfold Inv at h ⊢
  unfold Erase
  simp only [List.length_append, List.length_take, List.length_drop]
  omega

theorem inv_Resize [Inhabited α] (v : Vec α) (n : Nat) (h : v.Inv) :
    (Resize v n).Inv := by
  unfold Inv at h ⊢
  unfold Resize
  by_cases h1 : n ≤ v.elems.length
  · simp only [if_pos h1, List.length_take]
    omega
  · rw [if_neg h1]
    by_cases h2 : n ≤ v.cap
    · simp only [if_pos h2, List.length_append, List.length_replicate]
      omega
    · simp only [if_neg h2, Reserve, List.length_append, List.length_replicate]
      omega

theorem inv_SwapOp (a b : Vec α) (h1 : a.Inv) (h2 : b.Inv) :
    (SwapOp a b).1.Inv ∧ (SwapOp a b).2.Inv := ⟨h2, h1⟩

/-- Helper: `List.eraseIdx` in take/drop surgery form. -/
theorem eraseIdx_eq_take_append_drop (l : List α) (i : Nat) :
    l.eraseIdx i = l.take i ++ l.drop (i + 1) := by
  induction l generalizing i with
  | nil => simp [List.eraseIdx]
  | cons a t ih =>
    cases i with
    | zero => simp [List.eraseIdx]
    | succ n => simp [List.eraseIdx, ih]

/-- Helper: the growth amount `size == 0 ? 1 : 2 * size` taken when the
array is full (`size == capacity`) equals
`max(size + 1, capacity == 0 ? 1 : 2 * capacity)`. -/
theorem growth_formula (c : Nat) :
    (if c = 0 then 1 else 2 * c) = max (c + 1) (if c = 0 then 1 else 2 * c) := by
  by_cases h : c = 0
  · simp [h]
  · rw [if_neg h]
    exact (Nat.max_eq_right (by omega)).symm

end Vec

/-- C1: the claim demands that a copy/move construction throwing during the
reallocation of `EmplaceBack` is re-raised with the vector unchanged.  The
code violates it: the `catch (...)` clause in `EmplaceBack` destroys only
the newly constructed element and does not rethrow, so control falls
through to the swap.  Evaluating the model on a full 3-element vector with
a copy constructor that always throws: the call returns normally (`.ok`,
no exception escapes), `size_` becomes 4, and the new storage holds no
live element at all — the 3 originals were destroyed with the old block. -/
theorem emplaceBack_swallows_relocation_failure :
    Vec.EmplaceBackFallible (fun _ => none) (⟨[10, 20, 30], 3⟩ : Vec Nat) 40
      = .ok { slots := List.replicate 6 none, size := 4 } := rfl

/-- C2: the claim (and the spec) say a moved-from `RawMemory` holds a null
address so that destroying source and destination never frees the same
region twice.  The code violates it: `std::move` on the raw `buffer_`
pointer copies it and leaves the source unchanged, so after move
construction (and likewise move assignment) from a block at address 7 both
objects hold address 7 and the two destructors pass the same address to
`operator delete` twice. -/
theorem rawMemory_move_leaves_source_owning :
    (RawMemory.moveCtor ⟨some 7, 5⟩).2.buffer = some 7 ∧
    (RawMemory.moveCtor ⟨some 7, 5⟩).1.buffer = some 7 ∧
    RawMemory.dtorReleases (RawMemory.moveCtor ⟨some 7, 5⟩).1 ++
      RawMemory.dtorReleases (RawMemory.moveCtor ⟨some 7, 5⟩).2 = [7, 7] ∧
    (RawMemory.moveAssign false ⟨none, 0⟩ ⟨some 7, 5⟩).2.buffer = some 7 :=
  ⟨rfl, rfl, rfl, rfl⟩

/-- C3 counterexample: move assignment swaps the two vectors, so
move-assigning from `[2, 3]` into a vector holding `[1]` leaves the
moved-from source with size 1, not 0 as the claim states. -/
theorem moveAssign_source_not_empty :
    ((Vec.moveAssign false (⟨[1], 1⟩ : Vec Nat) ⟨[2, 3], 2⟩).2).Size ≠ 0 := by
  decide

/-- C3 amended: move construction transfers the sequence and leaves the
source empty (size 0, capacity 0); move assignment swaps, so the
destination holds exactly the prior sequence of the source while the
moved-from source holds the prior contents of the destination (empty only
when the destination was empty); self-move assignment is a no-op. -/
theorem move_semantics (α : Type) (v dst src : Vec α) :
    (Vec.moveCtor v).1 = v ∧
    (Vec.moveCtor v).2.Size = 0 ∧
    (Vec.moveCtor v).2.Capacity = 0 ∧
    (Vec.moveAssign false dst src).1 = src ∧
    (Vec.moveAssign false dst src).2 = dst ∧
    Vec.moveAssign true v v = (v, v) :=
  ⟨rfl, rfl, rfl, rfl, rfl, rfl⟩

/-- C4 counterexample: `Reserve` on a vector of capacity 2 asked for 3
slots allocates exactly 3, not `max(3, 2 * 2) = 4` as the claim states for
every growing operation. -/
theorem reserve_allocates_exactly :
    (2 : Nat) < 3 ∧
    (Vec.Reserve (⟨[0, 0], 2⟩ : Vec Nat) 3).Capacity = 3 ∧
    (Vec.Reserve (⟨[0, 0], 2⟩ : Vec Nat) 3).Capacity ≠ max 3 (2 * 2) := by
  decide

/-- C4 amended: when the needed capacity is at most the current capacity no
operation allocates and capacity is unchanged; when `EmplaceBack` or
`Emplace` must grow (which happens exactly at `size_ == capacity`) the new
capacity is `size_ == 0 ? 1 : 2 * size_`, which equals
`max(size_ + 1, capacity == 0 ? 1 : 2 * capacity)`; but `Reserve` (and
hence `Resize`) allocates exactly the requested capacity, without the
doubling maximum. -/
theorem growth_policy (α : Type) (v : Vec α) (n i : Nat) (x : α) :
    (n ≤ v.Capacity → Vec.Reserve v n = v) ∧
    (v.Capacity < n → (Vec.Reserve v n).Capacity = n) ∧
    (v.Size < v.Capacity → (Vec.EmplaceBack v x).Capacity = v.Capacity) ∧
    (v.Size = v.Capacity → (Vec.EmplaceBack v x).Capacity
        = max (v.Size + 1) (if v.Capacity = 0 then 1 else 2 * v.Capacity)) ∧
    (v.Size < v.Capacity → (Vec.Emplace v i x).1.Capacity = v.Capacity) ∧
    (v.Size = v.Capacity → (Vec.Emplace v i x).1.Capacity
        = max (v.Size + 1) (if v.Capacity = 0 then 1 else 2 * v.Capacity)) := by
  refine ⟨?_, ?_, ?_, ?_, ?_, ?_⟩
  · intro h
    unfold Vec.Capacity at h
    unfold Vec.Reserve
    rw [if_pos h]
  · intro h
    unfold Vec.Capacity at h ⊢
    unfold Vec.Reserve
    rw [if_neg (by omega)]
  · intro h
    exact Vec.EmplaceBack_cap_spare v x h
  · intro h
    unfold Vec.Size Vec.Capacity at h ⊢
    rw [Vec.EmplaceBack_cap_full v x (by omega), h, ← h, ← Vec.growth_formula,
      h]
  · intro h
    exact Vec.Emplace_cap_spare v i x h
  · intro h
    unfold Vec.Size Vec.Capacity at h ⊢
    rw [Vec.Emplace_cap_full v i x (by omega), h, ← h, ← Vec.growth_formula, h]

/-- C4 witness: the amended growth policy evaluated at concrete inputs, one
per hypothesis. -/
theorem growth_policy_witness :
    Vec.Reserve (⟨[5], 1⟩ : Vec Nat) 1 = ⟨[5], 1⟩ ∧
    (Vec.Reserve (⟨[5], 1⟩ : Vec Nat) 3).Capacity = 3 ∧
    (Vec.EmplaceBack (⟨[5], 2⟩ : Vec Nat) 9).Capacity = 2 ∧
    (Vec.EmplaceBack (⟨[5], 1⟩ : Vec Nat) 9).Capacity = max 2 2 ∧
    (Vec.Emplace (⟨[5], 2⟩ : Vec Nat) 0 9).1.Capacity = 2 ∧
    (Vec.Emplace (⟨[5], 1⟩ : Vec Nat) 0 9).1.Capacity = max 2 2 :=
  ⟨(growth_policy Nat ⟨[5], 1⟩ 1 0 9).1 (by decide),
   (growth_policy Nat ⟨[5], 1⟩ 3 0 9).2.1 (by decide),
   (growth_policy Nat ⟨[5], 2⟩ 1 0 9).2.2.1 (by decide),
   (growth_policy Nat ⟨[5], 1⟩ 1 0 9).2.2.2.1 (by decide),
   (growth_policy Nat ⟨[5], 2⟩ 1 0 9).2.2.2.2.1 (by decide),
   (growth_policy Nat ⟨[5], 1⟩ 1 0 9).2.2.2.2.2 (by decide)⟩

/-- C5: for every index `i` in `[0, size]`, a completed `Insert`/`Emplace`
at `i` yields the original sequence with the new value at `i` and the
former elements of `[i, size)` shifted right by one in order, increments
the size by one, and returns the position of the new element. -/
theorem emplace_inserts (α : Type) (v : Vec α) (i : Nat) (x : α)
    (h : i ≤ v.Size) :
    (Vec.Emplace v i x).1.elems = v.elems.take i ++ x :: v.elems.drop i ∧
    (Vec.Emplace v i x).1.Size = v.Size + 1 ∧
    (∀ j, j < i → (Vec.Emplace v i x).1.elems[j]? = v.elems[j]?) ∧
    (Vec.Emplace v i x).1.elems[i]? = some x ∧
    (∀ j, i ≤ j → j < v.Size → (Vec.Emplace v i x).1.elems[j + 1]? = v.elems[j]?) ∧
    (Vec.Emplace v i x).2 = i ∧
    Vec.Insert v i x = Vec.Emplace v i x := by
  unfold Vec.Size at h ⊢
  have he := Vec.Emplace_elems v i x h
  have hlentake : (v.elems.take i).length = i := by
    rw [List.length_take]
    omega
  refine ⟨he, ?_, ?_, ?_, ?_, Vec.Emplace_ret v i x h, rfl⟩
  · rw [he]
    simp only [List.length_append, List.length_take, List.length_cons,
      List.length_drop]
    omega
  · intro j hj
    rw [he, List.getElem?_append, if_pos (by rw [hlentake]; omega),
      List.getElem?_take, if_pos hj]
  · rw [he, List.getElem?_append, if_neg (by rw [hlentake]; omega), hlentake,
      Nat.sub_self]
    exact List.getElem?_cons_zero
  · intro j h1 h2
    rw [he, List.getElem?_append, if_neg (by rw [hlentake]; omega), hlentake]
    have hj1 : j + 1 - i = (j - i) + 1 := by omega
    rw [hj1, List.getElem?_cons_succ, List.getElem?_drop]
    congr 1
    omega

/-- C5 witness: inserting 99 at index 1 of the full vector `[10, 20, 30]`
(capacity 3, reallocating path) at concrete inputs, with each hypothesis
discharged. -/
theorem emplace_inserts_witness :
    (Vec.Emplace (⟨[10, 20, 30], 3⟩ : Vec Nat) 1 99).1.elems = [10, 99, 20, 30] ∧
    (Vec.Emplace (⟨[10, 20, 30], 3⟩ : Vec Nat) 1 99).1.Size = 4 ∧
    (Vec.Emplace (⟨[10, 20, 30], 3⟩ : Vec Nat) 1 99).1.elems[0]? = some 10 ∧
    (Vec.Emplace (⟨[10, 20, 30], 3⟩ : Vec Nat) 1 99).1.elems[1]? = some 99 ∧
    (Vec.Emplace (⟨[10, 20, 30], 3⟩ : Vec Nat) 1 99).1.elems[2]? = some 20 ∧
    (Vec.Emplace (⟨[10, 20, 30], 3⟩ : Vec Nat) 1 99).2 = 1 :=
  ⟨(emplace_inserts Nat ⟨[10, 20, 30], 3⟩ 1 99 (by decide)).1,
   (emplace_inserts Nat ⟨[10, 20, 30], 3⟩ 1 99 (by decide)).2.1,
   (emplace_inserts Nat ⟨[10, 20, 30], 3⟩ 1 99 (by decide)).2.2.1 0 (by decide),
   (emplace_inserts Nat ⟨[10, 20, 30], 3⟩ 1 99 (by decide)).2.2.2.1,
   (emplace_inserts Nat ⟨[10, 20, 30], 3⟩ 1 99 (by decide)).2.2.2.2.1 1
     (by decide) (by decide),
   (emplace_inserts Nat ⟨[10, 20, 30], 3⟩ 1 99 (by decide)).2.2.2.2.2.1⟩

/-- C6: for every index `i` in `[0, size)`, `Erase` removes exactly the
element at `i`, shifts `[i + 1, size)` left by one preserving relative
order, and decrements the size by one. -/
theorem erase_removes (α : Type) (v : Vec α) (i : Nat) (h : i < v.Size) :
    (Vec.Erase v i).1.elems = v.elems.eraseIdx i ∧
    (Vec.Erase v i).1.Size + 1 = v.Size ∧
    (∀ j, j < i → (Vec.Erase v i).1.elems[j]? = v.elems[j]?) ∧
    (∀ j, i ≤ j → j + 1 < v.Size → (Vec.Erase v i).1.elems[j]? = v.elems[j + 1]?) ∧
    (Vec.Erase v i).1.Capacity = v.Capacity ∧
    (Vec.Erase v i).2 = i := by
  unfold Vec.Size at h ⊢
  unfold Vec.Erase Vec.Capacity
  dsimp only
  have hlentake : (v.elems.take i).length = i := by
    rw [List.length_take]
    omega
  refine ⟨(Vec.eraseIdx_eq_take_append_drop v.elems i).symm, ?_, ?_, ?_, rfl, rfl⟩
  · simp only [List.length_append, List.length_take, List.length_drop]
    omega
  · intro j hj
    rw [List.getElem?_append, if_pos (by rw [hlentake]; omega),
      List.getElem?_take, if_pos hj]
  · intro j h1 h2
    rw [List.getElem?_append, if_neg (by rw [hlentake]; omega), hlentake,
      List.getElem?_drop]
    congr 1
    omega

/-- C6 witness: erasing index 1 of `[10, 20, 30]` at concrete inputs, with
each hypothesis discharged. -/
theorem erase_removes_witness :
    (Vec.Erase (⟨[10, 20, 30], 3⟩ : Vec Nat) 1).1.elems = [10, 30] ∧
    (Vec.Erase (⟨[10, 20, 30], 3⟩ : Vec Nat) 1).1.Size + 1 = 3 ∧
    (Vec.Erase (⟨[10, 20, 30], 3⟩ : Vec Nat) 1).1.elems[0]? = some 10 ∧
    (Vec.Erase (⟨[10, 20, 30], 3⟩ : Vec Nat) 1).1.elems[1]? = some 30 ∧
    (Vec.Erase (⟨[10, 20, 30], 3⟩ : Vec Nat) 1).1.Capacity = 3 :=
  ⟨(erase_removes Nat ⟨[10, 20, 30], 3⟩ 1 (by decide)).1,
   (erase_removes Nat ⟨[10, 20, 30], 3⟩ 1 (by decide)).2.1,
   (erase_removes Nat ⟨[10, 20, 30], 3⟩ 1 (by decide)).2.2.1 0 (by decide),
   (erase_removes Nat ⟨[10, 20, 30], 3⟩ 1 (by decide)).2.2.2.1 1 (by decide)
     (by decide),
   (erase_removes Nat ⟨[10, 20, 30], 3⟩ 1 (by decide)).2.2.2.2.1⟩

/-- C7: `Resize(n)` with `n ≤ size` truncates to the first `n` elements
unchanged; with `n > size` it keeps the original prefix unchanged and
appends `n - size` default-constructed elements, growing the capacity to
exactly `n` first when `n` exceeds it (and leaving capacity unchanged when
`n` fits). -/
theorem resize_spec (α : Type) [Inhabited α] (v : Vec α) (n : Nat) :
    (n ≤ v.Size → (Vec.Resize v n).elems = v.elems.take n ∧
      (Vec.Resize v n).Capacity = v.Capacity) ∧
    (v.Size < n →
      (Vec.Resize v n).elems = v.elems ++ List.replicate (n - v.Size) default ∧
      (Vec.Resize v n).Size = n ∧
      (Vec.Resize v n).elems.take v.Size = v.elems ∧
      (n ≤ v.Capacity → (Vec.Resize v n).Capacity = v.Capacity) ∧
      (v.Capacity < n → (Vec.Resize v n).Capacity = n)) := by
  unfold Vec.Size Vec.Capacity
  constructor
  · intro h
    unfold Vec.Resize
    rw [if_pos h]
    exact ⟨rfl, rfl⟩
  · intro h
    unfold Vec.Resize
    rw [if_neg (by omega)]
    by_cases h2 : n ≤ v.cap
    · rw [if_pos h2]
      dsimp only
      refine ⟨rfl, ?_, List.take_left v.elems _, fun _ => rfl,
        fun hc => absurd h2 (by omega)⟩
      simp only [List.length_append, List.length_replicate]
      omega
    · rw [if_neg h2]
      have hr : Vec.Reserve v n = { elems := v.elems, cap := n } := by
        unfold Vec.Reserve
        rw [if_neg h2]
      rw [hr]
      dsimp only
      refine ⟨rfl, ?_, List.take_left v.elems _, fun hc => absurd hc h2,
        fun _ => rfl⟩
      simp only [List.length_append, List.length_replicate]
      omega

/-- C7 witness: resizing `[1, 2, 3]` (capacity 4) down to 1 and up to 6 at
concrete inputs, with each hypothesis discharged. -/
theorem resize_spec_witness :
    (Vec.Resize (⟨[1, 2, 3], 4⟩ : Vec Nat) 1).elems = [1] ∧
    (Vec.Resize (⟨[1, 2, 3], 4⟩ : Vec Nat) 1).Capacity = 4 ∧
    (Vec.Resize (⟨[1, 2, 3], 4⟩ : Vec Nat) 4).elems = [1, 2, 3, 0] ∧
    (Vec.Resize (⟨[1, 2, 3], 4⟩ : Vec Nat) 4).Capacity = 4 ∧
    (Vec.Resize (⟨[1, 2, 3], 4⟩ : Vec Nat) 6).elems = [1, 2, 3, 0, 0, 0] ∧
    (Vec.Resize (⟨[1, 2, 3], 4⟩ : Vec Nat) 6).Size = 6 ∧
    (Vec.Resize (⟨[1, 2, 3], 4⟩ : Vec Nat) 6).elems.take 3 = [1, 2, 3] ∧
    (Vec.Resize (⟨[1, 2, 3], 4⟩ : Vec Nat) 6).Capacity = 6 :=
  ⟨((resize_spec Nat ⟨[1, 2, 3], 4⟩ 1).1 (by decide)).1,
   ((resize_spec Nat ⟨[1, 2, 3], 4⟩ 1).1 (by decide)).2,
   ((resize_spec Nat ⟨[1, 2, 3], 4⟩ 4).2 (by decide)).1,
   ((resize_spec Nat ⟨[1, 2, 3], 4⟩ 4).2 (by decide)).2.2.2.1 (by decide),
   ((resize_spec Nat ⟨[1, 2, 3], 4⟩ 6).2 (by decide)).1,
   ((resize_spec Nat ⟨[1, 2, 3], 4⟩ 6).2 (by decide)).2.1,
   ((resize_spec Nat ⟨[1, 2, 3], 4⟩ 6).2 (by decide)).2.2.1,
   ((resize_spec Nat ⟨[1, 2, 3], 4⟩ 6).2 (by decide)).2.2.2.2 (by decide)⟩

/-- Supporting fact: on normal, non-throwing executions every public
operation of the array preserves the representation invariant
`0 ≤ size ≤ capacity` with exactly the slots `[0, size)` live and the
slots `[size, capacity)` uninitialized (`GoodState` packages the size
bound together with the machine-level slot liveness picture).  The
invariant claim as a whole nevertheless fails on the code: see the
broken-invariant theorem below for the throwing-relocation execution of
`EmplaceBack` that returns normally in a state violating `MachVec.WF`. -/
theorem ops_preserve_invariant (α : Type) [Inhabited α] (v w : Vec α)
    (n i : Nat) (x : α) (hv : v.Inv) (hw : w.Inv) :
    Vec.GoodState (Vec.mkDefault : Vec α) ∧
    Vec.GoodState (Vec.mkSized n : Vec α) ∧
    Vec.GoodState (Vec.copyCtor v) ∧
    Vec.GoodState (Vec.moveCtor v).1 ∧
    Vec.GoodState (Vec.moveCtor v).2 ∧
    Vec.GoodState (Vec.moveAssign false v w).1 ∧
    Vec.GoodState (Vec.moveAssign false v w).2 ∧
    Vec.GoodState (Vec.copyAssign false v w) ∧
    Vec.GoodState (Vec.Reserve v n) ∧
    Vec.GoodState (Vec.EmplaceBack v x) ∧
    Vec.GoodState (Vec.PushBack v x) ∧
    (∀ u, Vec.PopBack v = some u → Vec.GoodState u) ∧
    (i ≤ v.Size → Vec.GoodState (Vec.Emplace v i x).1) ∧
    (i ≤ v.Size → Vec.GoodState (Vec.Insert v i x).1) ∧
    Vec.GoodState (Vec.Erase v i).1 ∧
    Vec.GoodState (Vec.Resize v n) ∧
    Vec.GoodState (Vec.SwapOp v w).1 ∧
    Vec.GoodState (Vec.SwapOp v w).2 := by
  refine ⟨Vec.goodState_of_inv _ Vec.inv_mkDefault,
    Vec.goodState_of_inv _ (Vec.inv_mkSized n),
    Vec.goodState_of_inv _ (Vec.inv_copyCtor v),
    Vec.goodState_of_inv _ (Vec.inv_moveCtor v hv).1,
    Vec.goodState_of_inv _ (Vec.inv_moveCtor v hv).2,
    Vec.goodState_of_inv _ (Vec.inv_moveAssign false v w hv hw).1,
    Vec.goodState_of_inv _ (Vec.inv_moveAssign false v w hv hw).2,
    Vec.goodState_of_inv _ (Vec.inv_copyAssign false v w hv),
    Vec.goodState_of_inv _ (Vec.inv_Reserve v n hv),
    Vec.goodState_of_inv _ (Vec.inv_EmplaceBack v x hv),
    Vec.goodState_of_inv _ (Vec.inv_EmplaceBack v x hv),
    fun u hu => Vec.goodState_of_inv _ (Vec.inv_PopBack v u hu hv),
    fun hi => Vec.goodState_of_inv _ (Vec.inv_Emplace v i x hv hi),
    fun hi => Vec.goodState_of_inv _ (Vec.inv_Emplace v i x hv hi),
    Vec.goodState_of_inv _ (Vec.inv_Erase v i hv),
    Vec.goodState_of_inv _ (Vec.inv_Resize v n hv),
    Vec.goodState_of_inv _ (Vec.inv_SwapOp v w hv hw).1,
    Vec.goodState_of_inv _ (Vec.inv_SwapOp v w hv hw).2⟩

/-- Concrete instances of the success-path preservation fact on the vector
`[1, 2]` with capacity 3, with each hypothesis discharged. -/
theorem ops_preserve_invariant_witness :
    Vec.GoodState (Vec.Reserve (⟨[1, 2], 3⟩ : Vec Nat) 5) ∧
    Vec.GoodState (Vec.EmplaceBack (⟨[1, 2], 3⟩ : Vec Nat) 9) ∧
    Vec.GoodState (⟨[1], 3⟩ : Vec Nat) ∧
    Vec.GoodState (Vec.Emplace (⟨[1, 2], 3⟩ : Vec Nat) 1 9).1 ∧
    Vec.GoodState (Vec.Erase (⟨[1, 2], 3⟩ : Vec Nat) 1).1 ∧
    Vec.GoodState (Vec.Resize (⟨[1, 2], 3⟩ : Vec Nat) 5) :=
  ⟨(ops_preserve_invariant Nat ⟨[1, 2], 3⟩ ⟨[7], 1⟩ 5 1 9 (by decide)
      (by decide)).2.2.2.2.2.2.2.2.1,
   (ops_preserve_invariant Nat ⟨[1, 2], 3⟩ ⟨[7], 1⟩ 5 1 9 (by decide)
      (by decide)).2.2.2.2.2.2.2.2.2.1,
   (ops_preserve_invariant Nat ⟨[1, 2], 3⟩ ⟨[7], 1⟩ 5 1 9 (by decide)
      (by decide)).2.2.2.2.2.2.2.2.2.2.2.1 ⟨[1], 3⟩ rfl,
   (ops_preserve_invariant Nat ⟨[1, 2], 3⟩ ⟨[7], 1⟩ 5 1 9 (by decide)
      (by decide)).2.2.2.2.2.2.2.2.2.2.2.2.1 (by decide),
   (ops_preserve_invariant Nat ⟨[1, 2], 3⟩ ⟨[7], 1⟩ 5 1 9 (by decide)
      (by decide)).2.2.2.2.2.2.2.2.2.2.2.2.2.2.1,
   (ops_preserve_invariant Nat ⟨[1, 2], 3⟩ ⟨[7], 1⟩ 5 1 9 (by decide)
      (by decide)).2.2.2.2.2.2.2.2.2.2.2.2.2.2.2.1⟩

/-- C9: copy-assigning a vector to itself is a no-op.  The code takes the
early-return branch of the self-check `this == &other` (modelled by the
`aliased` flag), and in fact even the three-case assignment body is the
identity on a well-formed self-assignment. -/
theorem self_copy_assign_noop (α : Type) (v : Vec α) (h : v.Inv) :
    Vec.copyAssign true v v = v ∧ Vec.copyAssignBody v v = v := by
  refine ⟨rfl, ?_⟩
  unfold Vec.Inv at h
  unfold Vec.copyAssignBody
  rw [if_neg (lt_irrefl _), if_pos h]
  cases v with
  | mk e c => simp

/-- C9 witness: self-copy-assignment of the concrete vector `[1, 2]` with
capacity 3, with the invariant hypothesis discharged. -/
theorem self_copy_assign_noop_witness :
    Vec.copyAssign true (⟨[1, 2], 3⟩ : Vec Nat) ⟨[1, 2], 3⟩ = ⟨[1, 2], 3⟩ ∧
    Vec.copyAssignBody (⟨[1, 2], 3⟩ : Vec Nat) ⟨[1, 2], 3⟩ = ⟨[1, 2], 3⟩ :=
  self_copy_assign_noop Nat ⟨[1, 2], 3⟩ (by decide)

/-- C10: `PopBack` guards its precondition with `assert(size_ != 0)` and
the mutable `operator[]` with `assert(index < size_)` (both modelled as
`none` when the assertion fires), but `Erase` performs no check at all: on
an empty vector it still runs the destroy-and-shift path and `--size_`
wraps the unsigned `size_` from 0 to `2^64 - 1`. -/
theorem erase_unchecked_wraps :
    (∀ v : Vec Nat, v.Size = 0 → Vec.PopBack v = none) ∧
    (∀ (v : Vec Nat) (i : Nat), v.Size ≤ i → Vec.getChecked v i = none) ∧
    Vec.EraseMach (⟨[], 0⟩ : MachVec Nat) 0
      = { slots := [], size := 2 ^ 64 - 1 } ∧
    Vec.decSizeT 0 = 2 ^ 64 - 1 := by
  refine ⟨?_, ?_, ?_, ?_⟩
  · intro v hv
    unfold Vec.Size at hv
    unfold Vec.PopBack
    rw [if_pos hv]
  · intro v i hi
    unfold Vec.Size at hi
    unfold Vec.getChecked
    rw [if_neg (by omega)]
  · rfl
  · rfl

/-- C10 witness: the guarded operations on the concrete empty vector and an
out-of-range index, with each hypothesis discharged. -/
theorem erase_unchecked_wraps_witness :
    Vec.PopBack (⟨[], 0⟩ : Vec Nat) = none ∧
    Vec.getChecked (⟨[1], 1⟩ : Vec Nat) 1 = none :=
  ⟨erase_unchecked_wraps.1 ⟨[], 0⟩ (by decide),
   erase_unchecked_wraps.2.1 ⟨[1], 1⟩ 1 (by decide)⟩

/-- C8: the claim that every public operation preserves the representation
invariant (exactly the slots `[0, size_)` live, `0 ≤ size_ ≤ capacity`) is
what the spec demands, but the code violates it: a precondition-respecting
`EmplaceBack` on a full 3-element vector whose relocation copy throws
returns normally (the catch clause swallows the exception instead of
rethrowing), leaving `size_` = 4 while the storage holds zero live
elements — a state that fails the machine-level invariant `MachVec.WF`. -/
theorem invariant_broken_by_swallowed_failure :
    Vec.EmplaceBackFallible (fun _ => none) (⟨[20, 30, 40], 3⟩ : Vec Nat) 50
      = .ok { slots := List.replicate 6 none, size := 4 } ∧
    ¬ MachVec.WF { slots := (List.replicate 6 none : List (Option Nat)), size := 4 } :=
  ⟨rfl, by decide⟩
